import Mathlib

set_option maxRecDepth 100000

/-!
Shallow embedding of the DS7505 temperature sensor driver (DS7505.h, DS7505.cpp)
and verification of its specification claims.

Bytes are modelled as Nat values (all stores into uint8_t fields are provably
below 256, noted where relevant).  Temperatures are modelled as rationals: every
constant appearing in the C source (0.5, 0.25, 0.125, 0.0625, -55.0, 125.0) and
every quantity the arithmetic produces is an exact binary fraction of small
magnitude, so float and double arithmetic in the source is exact and agrees
with rational arithmetic.  Bus traffic is modelled as the list of transactions
a call emits: one transaction per beginTransmission .. endTransmission pair,
carrying the bus address and the bytes sent.
-/

namespace DS7505

/-- Resolution enum from DS7505.h (RES_09 = 0x0 .. RES_12 = 0x3). -/
inductive Resolution
  | RES_09
  | RES_10
  | RES_11
  | RES_12
deriving DecidableEq

/-- Numeric value of the Resolution enum constants. -/
def Resolution.val : Resolution → Nat
  | .RES_09 => 0x0
  | .RES_10 => 0x1
  | .RES_11 => 0x2
  | .RES_12 => 0x3

/-- FaultTolerance enum from DS7505.h (FT_1 = 0x0 .. FT_6 = 0x3). -/
inductive FaultTolerance
  | FT_1
  | FT_2
  | FT_4
  | FT_6
deriving DecidableEq

/-- Numeric value of the FaultTolerance enum constants. -/
def FaultTolerance.val : FaultTolerance → Nat
  | .FT_1 => 0x0
  | .FT_2 => 0x1
  | .FT_4 => 0x2
  | .FT_6 => 0x3

/-- Register pointer enum from DS7505.h. -/
inductive Register
  | P_TEMP
  | P_CONF
  | P_THYST
  | P_TOS
deriving DecidableEq

/-- Numeric value of the Register enum constants. -/
def Register.val : Register → Nat
  | .P_TEMP => 0x0
  | .P_CONF => 0x1
  | .P_THYST => 0x2
  | .P_TOS => 0x3

/-- The two private uint8_t fields of the DS7505 class. -/
structure DS7505State where
  _i2cAddr : Nat
  _configByte : Nat
deriving DecidableEq

/-- One I2C transaction: the bytes sent between beginTransmission(addr) and
endTransmission. -/
structure Transaction where
  addr : Nat
  data : List Nat
deriving DecidableEq

/-- C++ DS7505 setConfigRegister, DS7505.cpp lines 27 to 33.  The body sends the
register pointer P_CONF followed by the cached member _configByte; the
parameter configByte is never read (the C source sends the field, not the
argument).  The state is unchanged. -/
def setConfigRegister (s : DS7505State) (configByte : Nat) : DS7505State × List Transaction :=
  (s, [{ addr := s._i2cAddr, data := [Register.P_CONF.val, s._configByte] }])

/-- C++ DS7505 sendCommand, DS7505.cpp lines 39 to 44: a single transaction
carrying only the command byte. -/
def sendCommand (s : DS7505State) (cmdSet : Nat) : DS7505State × List Transaction :=
  (s, [{ addr := s._i2cAddr, data := [cmdSet] }])

/-- C++ DS7505 init, DS7505.cpp lines 8 to 16.  The uint8_t stores cannot wrap:
res.val is at most 3 so res.val <<< 5 is at most 0x60, and the address
expression is at most 0x4F. -/
def init (a2 a1 a0 : Nat) (res : Resolution) : DS7505State × List Transaction :=
  let s : DS7505State :=
    { _configByte := res.val <<< 5
      _i2cAddr := 0x48 ||| ((a2 &&& 0x1) <<< 2) ||| ((a1 &&& 0x1) <<< 1) ||| (a0 &&& 0x1) }
  setConfigRegister s s._configByte

/-- Fractional part reconstructed from the low byte, DS7505.cpp line 74:
0.5 times bit 7 plus 0.25 times bit 6 plus 0.125 times bit 5 plus 0.0625 times
bit 4. -/
def fracPart (l : Nat) : ℚ :=
  (0.5 : ℚ) * (((l &&& 0x80) >>> 7 : Nat) : ℚ) + (0.25 : ℚ) * (((l &&& 0x40) >>> 6 : Nat) : ℚ)
    + (0.125 : ℚ) * (((l &&& 0x20) >>> 5 : Nat) : ℚ)
    + (0.0625 : ℚ) * (((l &&& 0x10) >>> 4 : Nat) : ℚ)

/-- High byte adjustment in the decode, DS7505.cpp lines 66 to 72.  The C
condition is written h & 0x80 == 0x80; C operator precedence parses it as
h & (0x80 == 0x80), that is h & 1, so the branch tests bit 0 of h, not bit 7.
When the branch is taken the source masks h with 0x7f. -/
def decodeH (h : Nat) : Nat :=
  if h &&& 1 ≠ 0 then h &&& 0x7f else h

/-- Pure decode tail of C++ DS7505 getTemp, DS7505.cpp lines 49 to 76, applied
to the two bytes h and l received from the wire.  The local float s in the C
source is assigned -1.0 in the masked branch and 1.0 otherwise but is never
read afterwards: the return expression on line 74 is the fractional sum plus
(float) h, so the result never receives a sign. -/
def getTempDecode (h l : Nat) : ℚ :=
  fracPart l + ((decodeH h : Nat) : ℚ)

/-- C style conversion of a nonnegative rational to a byte: truncation toward
zero (equal to the floor on nonnegative inputs), reduced mod 256.  Every use in
this development stays below 256. -/
def toByte (q : ℚ) : Nat := (⌊q⌋).toNat % 256

/-- High byte of the thermostat setpoint encoding, DS7505.cpp lines 93 to 98
and 121 to 126.  Note that for a negative value the C source combines the sign
bit with the magnitude using the bitwise AND operator: 0x80 & (byte) abs(tos). -/
def encodeHigh (t : ℚ) : Nat :=
  if t ≥ 0 then toByte t else 0x80 &&& toByte |t|

/-- Greedy fractional bit decomposition of the remainder, DS7505.cpp lines 102
to 119: weights 0.5, 0.25, 0.125, 0.0625 in descending order; when the
remainder is at least the weight the corresponding bit is set and the weight is
subtracted (no subtraction is performed at the last step in the source). -/
def fracBits (r0 : ℚ) : Nat :=
  let l1 : Nat := if r0 ≥ 0.5 then 0x80 else 0
  let r1 : ℚ := if r0 ≥ 0.5 then r0 - 0.5 else r0
  let l2 : Nat := if r1 ≥ 0.25 then l1 ||| 0x40 else l1
  let r2 : ℚ := if r1 ≥ 0.25 then r1 - 0.25 else r1
  let l3 : Nat := if r2 ≥ 0.125 then l2 ||| 0x20 else l2
  let r3 : ℚ := if r2 ≥ 0.125 then r2 - 0.125 else r2
  if r3 ≥ 0.0625 then l3 ||| 0x10 else l3

/-- Low byte of the thermostat setpoint encoding: the remainder computed on
DS7505.cpp line 100 as fabs((double) tos) - (int) abs(tos), that is the
absolute value minus its truncation, fed to the greedy decomposition.  On the
nonnegative value |t| truncation toward zero equals the floor. -/
def encodeLow (t : ℚ) : Nat :=
  fracBits (|t| - ((⌊|t|⌋ : ℤ) : ℚ))

/-- C++ DS7505 setThermostat, DS7505.cpp lines 84 to 166.  The guard on line 86
returns early with no bus traffic and no state change.  Otherwise the trip
setpoint transaction, the hysteresis setpoint transaction, and (through
setConfigRegister on the updated state) the configuration transaction are
emitted in that order.  The uint8_t store of the updated configuration byte
cannot wrap when the cached byte is below 256, since ft.val <<< 3 is at most
0x18. -/
def setThermostat (s : DS7505State) (tos thyst : ℚ) (ft : FaultTolerance) :
    DS7505State × List Transaction :=
  if tos < thyst ∨ tos < -55.0 ∨ thyst < -55.0 ∨ tos > 125.0 ∨ thyst > 125.0 then (s, [])
  else
    let tos_h := encodeHigh tos
    let tos_l := encodeLow tos
    let thyst_h := encodeHigh thyst
    let thyst_l := encodeLow thyst
    let s2 : DS7505State := { s with _configByte := (s._configByte &&& 0xE7) ||| (ft.val <<< 3) }
    let confCall := setConfigRegister s2 s2._configByte
    (confCall.1,
      [{ addr := s._i2cAddr, data := [Register.P_TOS.val, tos_h, tos_l] },
       { addr := s._i2cAddr, data := [Register.P_THYST.val, thyst_h, thyst_l] }] ++ confCall.2)

end DS7505

namespace DS7505

/-! Helper lemmas.  The bounded statements over bytes are settled by decision
over the 256 byte values; the rational facts reduce the fractional sum and the
greedy decomposition to the top nibble of the low byte. -/

/-- The weighted bit sum on DS7505.cpp line 74 equals the top nibble of the
low byte. -/
theorem natNibble : ∀ l : Nat, l < 256 →
    8 * ((l &&& 0x80) >>> 7) + 4 * ((l &&& 0x40) >>> 6) + 2 * ((l &&& 0x20) >>> 5)
        + ((l &&& 0x10) >>> 4) = l >>> 4 := by
  decide

/-- The fractional sum of the decode equals the top nibble of the low byte
divided by 16. -/
theorem fracPart_eq (l : Nat) (hl : l < 256) : fracPart l = ((l >>> 4 : Nat) : ℚ) / 16 := by
  have hnib := natNibble l hl
  unfold fracPart
  rw [← hnib]
  push_cast
  ring

/-- fracPart of a zero low byte is zero. -/
theorem fracPart_zero : fracPart 0 = 0 := by
  have h := fracPart_eq 0 (by norm_num)
  simpa using h

/-- decodeH stays below 256 on byte inputs. -/
theorem decodeH_lt : ∀ h : Nat, h < 256 → decodeH h < 256 := by
  decide

/-- decodeH is idempotent on byte inputs. -/
theorem decodeH_idem : ∀ h : Nat, h < 256 → decodeH (decodeH h) = decodeH h := by
  decide

/-- The top nibble of a byte is below 16. -/
theorem shiftr4_lt : ∀ l : Nat, l < 256 → l >>> 4 < 16 := by
  decide

/-- Shifting a nibble left by 4 stays below 256. -/
theorem shiftl4_lt : ∀ m : Nat, m < 16 → m <<< 4 < 256 := by
  decide

/-- Shifting a nibble left by 4 and back recovers it. -/
theorem shiftlr4 : ∀ m : Nat, m < 16 → (m <<< 4) >>> 4 = m := by
  decide

/-- Clearing bits 4 and 3 with mask 0xE7 and OR-ing in a two-bit field shifted
left by 3 leaves the bits outside positions 4 and 3 unchanged and installs the
field in positions 4 and 3. -/
theorem maskE7 : ∀ c : Nat, c < 256 → ∀ k : Nat, k < 4 →
    ((c &&& 0xE7 ||| k <<< 3) &&& 0xE7 = c &&& 0xE7
      ∧ (c &&& 0xE7 ||| k <<< 3) &&& 0x18 = k <<< 3) := by
  decide

/-- Each FaultTolerance enum value is below 4. -/
theorem FaultTolerance.val_lt (ft : FaultTolerance) : ft.val < 4 := by
  cases ft <;> decide

/-- Over a byte pair, the decoded value is the top nibble of the low byte over
16 plus the adjusted high byte. -/
theorem getTempDecode_eq (h l : Nat) (hl : l < 256) :
    getTempDecode h l = ((l >>> 4 : Nat) : ℚ) / 16 + ((decodeH h : Nat) : ℚ) := by
  unfold getTempDecode
  rw [fracPart_eq l hl]

/-- Floor of a nibble fraction plus a natural number. -/
theorem floor_nibble_add (m dH : Nat) (hm : m < 16) :
    ⌊((m : ℚ) / 16 + (dH : ℚ))⌋ = (dH : ℤ) := by
  rw [Int.floor_add_nat]
  have h0 : ⌊((m : ℚ) / 16)⌋ = 0 := by
    rw [Int.floor_eq_zero_iff, Set.mem_Ico]
    constructor
    · positivity
    · rw [div_lt_one (by norm_num)]
      exact_mod_cast hm
  rw [h0]
  simp

/-- The greedy decomposition recovers a nibble fraction exactly. -/
theorem fracBits_digit : ∀ m : Nat, m < 16 → fracBits ((m : ℚ) / 16) = m <<< 4 := by
  intro m hm
  interval_cases m <;> norm_num [fracBits] <;> decide

/-- The high byte encoder recovers the integer part of a value of the form
nibble fraction plus byte. -/
theorem encodeHigh_nibble_add (m dH : Nat) (hm : m < 16) (hdH : dH < 256) :
    encodeHigh ((m : ℚ) / 16 + (dH : ℚ)) = dH := by
  unfold encodeHigh toByte
  rw [if_pos (by positivity), floor_nibble_add m dH hm]
  simp [Nat.mod_eq_of_lt hdH]

/-- The low byte encoder recovers the nibble of a value of the form nibble
fraction plus byte. -/
theorem encodeLow_nibble_add (m dH : Nat) (hm : m < 16) :
    encodeLow ((m : ℚ) / 16 + (dH : ℚ)) = m <<< 4 := by
  unfold encodeLow
  have hnn : (0 : ℚ) ≤ (m : ℚ) / 16 + (dH : ℚ) := by positivity
  rw [abs_of_nonneg hnn, floor_nibble_add m dH hm]
  have hsub : (m : ℚ) / 16 + (dH : ℚ) - ((dH : ℤ) : ℚ) = (m : ℚ) / 16 := by
    push_cast
    ring
  rw [hsub]
  exact fracBits_digit m hm

/-- C1 evaluation at failing inputs: the byte pair (0x81, 0x00) decodes to
+1.0, not the -1.0 the claim computes (sign from bit 7, magnitude 1), and the
pair (0x80, 0x00) decodes to 128.0, not -0.0: the C condition h & 0x80 == 0x80
parses as h & (0x80 == 0x80), a test of bit 0, and the sign variable s is dead. -/
theorem claimC1_sign_not_applied :
    getTempDecode 0x81 0x00 = 1 ∧ getTempDecode 0x80 0x00 = 128
      ∧ getTempDecode 0x81 0x00 ≠ -1 := by
  refine ⟨?_, ?_, ?_⟩
  · unfold getTempDecode
    rw [fracPart_zero, (by decide : decodeH 0x81 = 1)]
    norm_num
  · unfold getTempDecode
    rw [fracPart_zero, (by decide : decodeH 0x80 = 128)]
    norm_num
  · unfold getTempDecode
    rw [fracPart_zero, (by decide : decodeH 0x81 = 1)]
    norm_num

/-- C2 evaluation at a failing input: for the in-range negative setpoint -10.5
the C source computes the high byte as 0x80 AND (byte) abs(-10.5), that is
0x80 AND 10 = 0x00, not the claimed 0x80 OR 10 = 0x8A; for every in-range
negative value the magnitude is at most 55, so the AND erases everything. -/
theorem claimC2_negative_high_byte :
    encodeHigh (-10.5 : ℚ) = 0x00 ∧ ((0x80 : Nat) ||| 10) = 0x8A
      ∧ encodeHigh (-10.5 : ℚ) ≠ ((0x80 : Nat) ||| 10) := by
  have habs : |(-10.5 : ℚ)| = 10.5 := by
    rw [abs_of_neg (by norm_num)]
    norm_num
  have hfl : ⌊(10.5 : ℚ)⌋ = 10 := by
    rw [Int.floor_eq_iff]
    norm_num
  have h1 : encodeHigh (-10.5 : ℚ) = 0x00 := by
    unfold encodeHigh toByte
    rw [if_neg (by norm_num), habs, hfl]
    decide
  refine ⟨h1, by decide, ?_⟩
  rw [h1]
  decide

/-- C5: decoding any byte pair and re-encoding the resulting Celsius value
reproduces a byte pair whose decoded value is within 0.0625 of the original
decoded value (the round trip is in fact exact). -/
theorem claimC5_roundtrip (h l : Nat) (hh : h < 256) (hl : l < 256) :
    |getTempDecode (encodeHigh (getTempDecode h l)) (encodeLow (getTempDecode h l))
        - getTempDecode h l| ≤ (0.0625 : ℚ) := by
  have hm : l >>> 4 < 16 := shiftr4_lt l hl
  have hd : decodeH h < 256 := decodeH_lt h hh
  have ht := getTempDecode_eq h l hl
  have key : getTempDecode (encodeHigh (getTempDecode h l)) (encodeLow (getTempDecode h l))
      = getTempDecode h l := by
    rw [ht, encodeHigh_nibble_add _ _ hm hd, encodeLow_nibble_add _ _ hm,
      getTempDecode_eq _ _ (shiftl4_lt _ hm), shiftlr4 _ hm, decodeH_idem h hh]
  rw [key, sub_self, abs_zero]
  norm_num

/-- C5 witness at the byte pair (0x20, 0x80). -/
theorem claimC5_roundtrip_witness :
    |getTempDecode (encodeHigh (getTempDecode 0x20 0x80)) (encodeLow (getTempDecode 0x20 0x80))
        - getTempDecode 0x20 0x80| ≤ (0.0625 : ℚ) :=
  claimC5_roundtrip 0x20 0x80 (by norm_num) (by norm_num)

/-- C8: the decode maps (0x20, 0x00) to 32.0, (0x20, 0x80) to 32.5, and
(0x00, 0x00) to 0.0. -/
theorem claimC8_decode_examples :
    getTempDecode 0x20 0x00 = 32 ∧ getTempDecode 0x20 0x80 = 32.5
      ∧ getTempDecode 0x00 0x00 = 0 := by
  refine ⟨?_, ?_, ?_⟩ <;>
    · unfold getTempDecode
      rw [fracPart_eq _ (by norm_num)]
      norm_num [(by decide : ((0x00 : Nat) >>> 4) = 0), (by decide : ((0x80 : Nat) >>> 4) = 8),
        (by decide : decodeH 0x20 = 0x20), (by decide : decodeH 0x00 = 0)]

/-- C10: for every pair of input bytes, including those with bit 7 of the high
byte set, the decoded temperature is nonnegative: the sign factor computed in
the C source is dead and never makes the result negative. -/
theorem claimC10_decode_nonneg (h l : Nat) : 0 ≤ getTempDecode h l := by
  unfold getTempDecode fracPart
  positivity

/-- C3 evaluation at a failing input: with cached configuration byte 0x00,
setConfigRegister 0xFF emits one transaction carrying the register pointer
P_CONF (0x1) followed by the cached byte 0x00, not the argument 0xFF: the C
body sends the member _configByte and ignores its parameter. -/
theorem claimC3_ignores_argument :
    setConfigRegister { _i2cAddr := 0x48, _configByte := 0x00 } 0xFF
        = ({ _i2cAddr := 0x48, _configByte := 0x00 },
           [{ addr := 0x48, data := [0x01, 0x00] }])
      ∧ (0x00 : Nat) ≠ 0xFF := by
  exact ⟨rfl, by decide⟩

/-- C4: whenever tos is below thyst or either setpoint falls outside the range
-55.0 to 125.0, setThermostat returns immediately: no bus transaction is issued
and the state, in particular the cached configuration byte, is unchanged. -/
theorem claimC4_reject_is_noop (s : DS7505State) (tos thyst : ℚ) (ft : FaultTolerance)
    (hrej : tos < thyst ∨ tos < -55.0 ∨ thyst < -55.0 ∨ tos > 125.0 ∨ thyst > 125.0) :
    setThermostat s tos thyst ft = (s, []) := by
  unfold setThermostat
  rw [if_pos hrej]

/-- C4 witness: setThermostat 10.0 20.0 FT_1 is rejected with zero bus
transactions and an unchanged state. -/
theorem claimC4_reject_is_noop_witness :
    setThermostat { _i2cAddr := 0x48, _configByte := 0x60 } 10 20 FaultTolerance.FT_1
      = ({ _i2cAddr := 0x48, _configByte := 0x60 }, []) :=
  claimC4_reject_is_noop _ 10 20 FaultTolerance.FT_1 (Or.inl (by norm_num))

/-- C7: init computes the bus address 0x48 OR (a2 AND 1) shifted left 2 OR
(a1 AND 1) shifted left 1 OR (a0 AND 1), and caches the configuration byte
res.val shifted left 5 with all other bits zero; in particular strap bits
0,0,0 give address 0x48 and strap bits 1,1,1 give address 0x4F. -/
theorem claimC7_init_address_config :
    (∀ (a2 a1 a0 : Nat) (res : Resolution),
        (init a2 a1 a0 res).1._i2cAddr
            = 0x48 ||| ((a2 &&& 1) <<< 2) ||| ((a1 &&& 1) <<< 1) ||| (a0 &&& 1)
          ∧ (init a2 a1 a0 res).1._configByte = res.val <<< 5)
      ∧ (init 0 0 0 Resolution.RES_12).1._i2cAddr = 0x48
      ∧ (init 1 1 1 Resolution.RES_12).1._i2cAddr = 0x4F := by
  exact ⟨fun a2 a1 a0 res => ⟨rfl, rfl⟩, by decide, by decide⟩

/-- C6: an accepted setThermostat call emits the trip setpoint transaction,
then the hysteresis setpoint transaction, then the configuration transaction
carrying the updated cached byte; the cached byte is updated by clearing bits
4 and 3 with mask 0xE7 and OR-ing in ft shifted left by 3, and every bit of
the cached byte outside positions 4 and 3 is preserved while positions 4 and 3
receive ft. -/
theorem claimC6_accept_sequence (s : DS7505State) (tos thyst : ℚ) (ft : FaultTolerance)
    (h1 : thyst ≤ tos) (h2 : -55.0 ≤ tos) (h3 : tos ≤ 125.0)
    (h4 : -55.0 ≤ thyst) (h5 : thyst ≤ 125.0) (hc : s._configByte < 256) :
    setThermostat s tos thyst ft
        = ({ _i2cAddr := s._i2cAddr
             _configByte := (s._configByte &&& 0xE7) ||| (ft.val <<< 3) },
           [{ addr := s._i2cAddr, data := [Register.P_TOS.val, encodeHigh tos, encodeLow tos] },
            { addr := s._i2cAddr
              data := [Register.P_THYST.val, encodeHigh thyst, encodeLow thyst] },
            { addr := s._i2cAddr
              data := [Register.P_CONF.val, (s._configByte &&& 0xE7) ||| (ft.val <<< 3)] }])
      ∧ ((s._configByte &&& 0xE7) ||| (ft.val <<< 3)) &&& 0xE7 = s._configByte &&& 0xE7
      ∧ ((s._configByte &&& 0xE7) ||| (ft.val <<< 3)) &&& 0x18 = ft.val <<< 3 := by
  refine ⟨?_, (maskE7 _ hc _ (FaultTolerance.val_lt ft)).1,
    (maskE7 _ hc _ (FaultTolerance.val_lt ft)).2⟩
  unfold setThermostat
  rw [if_neg]
  · rfl
  · push_neg
    exact ⟨h1, h2, h4, h3, h5⟩

/-- C6 witness: the accepted call setThermostat 32.45 30.14 FT_6 on the state
produced by init with 12 bit resolution (cached byte 0x60). -/
theorem claimC6_accept_sequence_witness :
    setThermostat { _i2cAddr := 0x48, _configByte := 0x60 } 32.45 30.14 FaultTolerance.FT_6
        = ({ _i2cAddr := 0x48
             _configByte := (0x60 &&& 0xE7) ||| (FaultTolerance.FT_6.val <<< 3) },
           [{ addr := 0x48, data := [Register.P_TOS.val, encodeHigh 32.45, encodeLow 32.45] },
            { addr := 0x48
              data := [Register.P_THYST.val, encodeHigh 30.14, encodeLow 30.14] },
            { addr := 0x48
              data := [Register.P_CONF.val, (0x60 &&& 0xE7) ||| (FaultTolerance.FT_6.val <<< 3)] }])
      ∧ ((0x60 &&& 0xE7) ||| (FaultTolerance.FT_6.val <<< 3)) &&& 0xE7 = 0x60 &&& 0xE7
      ∧ ((0x60 &&& 0xE7) ||| (FaultTolerance.FT_6.val <<< 3)) &&& 0x18
          = FaultTolerance.FT_6.val <<< 3 :=
  claimC6_accept_sequence { _i2cAddr := 0x48, _configByte := 0x60 } 32.45 30.14
    FaultTolerance.FT_6 (by norm_num) (by norm_num) (by norm_num) (by norm_num) (by norm_num)
    (by norm_num)

/-- Weight table of the greedy decomposition as the specification words it:
the weights 0.5, 0.25, 0.125, 0.0625 in descending order, each paired with the
bit it controls.  This definition follows the words of the specification and
is compared against the source-derived encoder. -/
def specGreedyWeights : List (ℚ × Nat) :=
  [(0.5, 0x80), (0.25, 0x40), (0.125, 0x20), (0.0625, 0x10)]

/-- Greedy walk over a weight table: whenever the remainder is at least the
weight, set the corresponding bit and subtract the weight, then continue with
the remaining weights. -/
def specGreedyGo : Nat → ℚ → List (ℚ × Nat) → Nat
  | acc, _, [] => acc
  | acc, r, (w, b) :: rest =>
      if r ≥ w then specGreedyGo (acc ||| b) (r - w) rest else specGreedyGo acc r rest

/-- Greedy decomposition of a fractional remainder as the specification words
it: walk the weights in descending order; whenever the remainder is at least
the weight, set the corresponding bit and subtract the weight. -/
def specLowByteGreedy (r : ℚ) : Nat :=
  specGreedyGo 0 r specGreedyWeights

/-- The source encoder and the specification greedy agree on every remainder. -/
theorem fracBits_eq_specGreedy (r : ℚ) : fracBits r = specLowByteGreedy r := by
  unfold fracBits specLowByteGreedy specGreedyWeights
  simp only [specGreedyGo]
  split_ifs <;> decide

/-- C9: for every value, the low byte built by the setThermostat encoder is
the greedy decomposition of the fractional remainder (absolute value minus its
floor) against the weights 0.5, 0.25, 0.125, 0.0625 in descending order; and
encoding 32.45 yields high byte 0x20 and low byte 0x70. -/
theorem claimC9_greedy_low_byte :
    (∀ t : ℚ, encodeLow t = specLowByteGreedy (|t| - ((⌊|t|⌋ : ℤ) : ℚ)))
      ∧ encodeHigh (32.45 : ℚ) = 0x20 ∧ encodeLow (32.45 : ℚ) = 0x70 := by
  have hfl : ⌊(32.45 : ℚ)⌋ = 32 := by
    rw [Int.floor_eq_iff]
    norm_num
  have habs : |(32.45 : ℚ)| = 32.45 := abs_of_nonneg (by norm_num)
  refine ⟨fun t => ?_, ?_, ?_⟩
  · unfold encodeLow
    exact fracBits_eq_specGreedy _
  · unfold encodeHigh toByte
    rw [if_pos (by norm_num), hfl]
    decide
  · unfold encodeLow
    rw [habs, hfl]
    have hr : (32.45 : ℚ) - ((32 : ℤ) : ℚ) = 0.45 := by norm_num
    rw [hr]
    norm_num [fracBits]
    decide

end DS7505
